import Mathlib

/-!
Shallow embedding of the runtime I/O engine of the thin-provisioning block
storage target (drivers/md/dm-thin.c): the deferred set, the bio prison, the
prepared-mapping pipeline, the no-space retry path and the fast-path mapping
function, together with theorems checking the specification against them.

Bios and work items are identified by natural-number ids; kernel list heads
become Lean lists; the fixed 64-entry ring of the deferred set becomes a
function from slot index to entry, indices taken modulo 64.
-/

namespace DmThin

/-! ### Deferred set (dm-thin.c: ds_init .. ds_add_work)

A fixed ring of DEFERRED_SET_SIZE slots, each a counter of outstanding shared
reads plus a list of work items (pending mappings) waiting for the slot to
drain.  current_entry is the slot accepting new increments, sweeper the oldest
possibly non-zero slot. -/

abbrev Work := Nat

def DEFERRED_SET_SIZE : Nat := 64

structure deferred_entry where
  count : Nat
  work_items : List Work
deriving DecidableEq

structure deferred_set where
  current_entry : Nat
  sweeper : Nat
  entries : Nat → deferred_entry

/-- Source: ds_next. -/
def ds_next (index : Nat) : Nat :=
  (index + 1) % DEFERRED_SET_SIZE

/-- Source: ds_inc — increment the current slot's counter, return its index. -/
def ds_inc (ds : deferred_set) : Nat × deferred_set :=
  (ds.current_entry,
   { ds with entries := fun i =>
       if i = ds.current_entry then
         { ds.entries ds.current_entry with
             count := (ds.entries ds.current_entry).count + 1 }
       else ds.entries i })

/-- Source: ds_add_work.  Returns 1 if the work was deferred (queued on the
current slot) or 0 if there are no pending reads to delay the job.  When it
queues the work it advances current_entry to the next slot if that slot's
count is zero (list_add puts the work at the head of the slot's list). -/
def ds_add_work (ds : deferred_set) (work : Work) : Nat × deferred_set :=
  if ds.sweeper = ds.current_entry ∧ (ds.entries ds.current_entry).count = 0 then
    (0, ds)
  else
    let entries1 : Nat → deferred_entry := fun i =>
      if i = ds.current_entry then
        { ds.entries ds.current_entry with
            work_items := work :: (ds.entries ds.current_entry).work_items }
      else ds.entries i
    let next_entry := ds_next ds.current_entry
    if (entries1 next_entry).count = 0 then
      (1, { ds with entries := entries1, current_entry := next_entry })
    else
      (1, { ds with entries := entries1 })

/-- Source: the while loop of __sweep.  The loop runs at most
DEFERRED_SET_SIZE times (the ring distance from sweeper to current_entry), so
it is embedded with an explicit fuel argument; __sweep below supplies fuel
DEFERRED_SET_SIZE which the theorems show is never exhausted.
list_splice_init moves a slot's work items to the head of the output list and
empties the slot. -/
def sweepLoop : Nat → deferred_set → List Work → deferred_set × List Work
  | 0, ds, head => (ds, head)
  | fuel + 1, ds, head =>
    if ds.sweeper ≠ ds.current_entry ∧ (ds.entries ds.sweeper).count = 0 then
      sweepLoop fuel
        { ds with
            entries := fun i =>
              if i = ds.sweeper then
                { ds.entries ds.sweeper with work_items := [] }
              else ds.entries i,
            sweeper := ds_next ds.sweeper }
        ((ds.entries ds.sweeper).work_items ++ head)
    else (ds, head)

/-- Source: __sweep — advance the sweeper past every zero-count slot up to
current_entry, splicing each passed slot's work items into head; if the
sweeper lands on current_entry and that slot's count is zero, its work items
drain as well. -/
def __sweep (ds : deferred_set) (head : List Work) : deferred_set × List Work :=
  if (sweepLoop DEFERRED_SET_SIZE ds head).1.sweeper
       = (sweepLoop DEFERRED_SET_SIZE ds head).1.current_entry ∧
     ((sweepLoop DEFERRED_SET_SIZE ds head).1.entries
        (sweepLoop DEFERRED_SET_SIZE ds head).1.sweeper).count = 0 then
    ({ (sweepLoop DEFERRED_SET_SIZE ds head).1 with
         entries := fun i =>
           if i = (sweepLoop DEFERRED_SET_SIZE ds head).1.sweeper then
             { (sweepLoop DEFERRED_SET_SIZE ds head).1.entries
                 (sweepLoop DEFERRED_SET_SIZE ds head).1.sweeper with
                 work_items := [] }
           else (sweepLoop DEFERRED_SET_SIZE ds head).1.entries i },
     ((sweepLoop DEFERRED_SET_SIZE ds head).1.entries
        (sweepLoop DEFERRED_SET_SIZE ds head).1.sweeper).work_items
       ++ (sweepLoop DEFERRED_SET_SIZE ds head).2)
  else sweepLoop DEFERRED_SET_SIZE ds head

/-- The deferred set after decrementing the given slot's counter (the first
statement of ds_dec, after the BUG_ON(!entry->count) assertion). -/
def dec_entry (ds : deferred_set) (entry : Nat) : deferred_set :=
  { ds with entries := fun i =>
      if i = entry then
        { ds.entries entry with count := (ds.entries entry).count - 1 }
      else ds.entries i }

/-- Source: ds_dec — decrement the slot's counter, then sweep. -/
def ds_dec (ds : deferred_set) (entry : Nat) (head : List Work) :
    deferred_set × List Work :=
  __sweep (dec_entry ds entry) head

/-- Ring distance from slot a to slot b, walking forwards. -/
def ringDist (a b : Nat) : Nat :=
  (b + DEFERRED_SET_SIZE - a) % DEFERRED_SET_SIZE

/-- C5: ds_add_work returns 0 — leaving the deferred set unchanged, the waiter
not queued — if and only if the sweeper equals the current entry and the
current entry's count is zero; otherwise it adds the waiter to the current
entry's work list, returns 1, and advances the current entry to the next slot
exactly when that next slot's count is zero. -/
theorem c5_ds_add_work_spec (ds : deferred_set) (w : Work) :
    ((ds_add_work ds w).1 = 0 ↔
      (ds.sweeper = ds.current_entry ∧ (ds.entries ds.current_entry).count = 0)) ∧
    ((ds_add_work ds w).1 = 0 → (ds_add_work ds w).2 = ds) ∧
    (¬(ds.sweeper = ds.current_entry ∧ (ds.entries ds.current_entry).count = 0) →
      (ds_add_work ds w).1 = 1 ∧
      ((ds_add_work ds w).2.entries ds.current_entry).work_items
        = w :: (ds.entries ds.current_entry).work_items ∧
      (ds_add_work ds w).2.sweeper = ds.sweeper ∧
      (ds_add_work ds w).2.current_entry
        = (if (ds.entries (ds_next ds.current_entry)).count = 0
           then ds_next ds.current_entry else ds.current_entry)) := by
  by_cases h : ds.sweeper = ds.current_entry ∧ (ds.entries ds.current_entry).count = 0
  · refine ⟨?_, ?_, ?_⟩
    · simp [ds_add_work, h]
    · intro _; simp [ds_add_work, h]
    · intro hcon; exact absurd h hcon
  · have hne : ds_next ds.current_entry ≠ ds.current_entry := by
      unfold ds_next DEFERRED_SET_SIZE
      omega
    refine ⟨?_, ?_, ?_⟩
    · constructor
      · intro h0
        by_cases hnext : (ds.entries (ds_next ds.current_entry)).count = 0 <;>
          simp [ds_add_work, h, hne, hnext] at h0
      · intro hcon; exact absurd hcon h
    · intro h0
      by_cases hnext : (ds.entries (ds_next ds.current_entry)).count = 0 <;>
        simp [ds_add_work, h, hne, hnext] at h0
    · intro _
      by_cases hnext : (ds.entries (ds_next ds.current_entry)).count = 0 <;>
        simp [ds_add_work, h, hne, hnext]

/-- Concrete instance for c5_ds_add_work_spec: one pending read on slot 0,
so the waiter is queued and the current entry advances to slot 1. -/
def dsA : deferred_set :=
  { current_entry := 0, sweeper := 0,
    entries := fun i => if i = 0 then ⟨1, []⟩ else ⟨0, []⟩ }

theorem c5_ds_add_work_spec_witness :
    (ds_add_work dsA 7).1 = 1 ∧
    ((ds_add_work dsA 7).2.entries 0).work_items = [7] ∧
    (ds_add_work dsA 7).2.current_entry = 1 := by
  have h := (c5_ds_add_work_spec dsA 7).2.2 (by decide)
  exact ⟨h.1, h.2.1, h.2.2.2.trans (by decide)⟩

lemma ringDist_lt (a b : Nat) : ringDist a b < 64 := by
  unfold ringDist DEFERRED_SET_SIZE
  omega

lemma ringDist_next (a b : Nat) (ha : a < 64) (hb : b < 64) (hne : a ≠ b) :
    ringDist (ds_next a) b + 1 = ringDist a b := by
  unfold ringDist ds_next DEFERRED_SET_SIZE
  omega

lemma ds_next_lt (a : Nat) : ds_next a < 64 := by
  unfold ds_next DEFERRED_SET_SIZE
  omega

lemma mod_shift (s j : Nat) : ((s + 1) % 64 + j) % 64 = (s + (j + 1)) % 64 := by
  omega

/-- Full characterisation of the sweep loop, by induction on the fuel: there
is a number k of passed slots, bounded by the ring distance from the sweeper
to the current entry, such that the sweeper advances k slots, each passed slot
had a zero count and is emptied into the output, every other slot is
untouched, the loop stops at the current entry or at a non-zero count, and
the output holds exactly the input items plus the passed slots' items. -/
lemma sweepLoop_spec (fuel : Nat) :
    ∀ (ds : deferred_set) (head : List Work),
      ds.sweeper < 64 → ds.current_entry < 64 →
      ringDist ds.sweeper ds.current_entry ≤ fuel →
      ∃ k, k ≤ ringDist ds.sweeper ds.current_entry ∧
        (sweepLoop fuel ds head).1.current_entry = ds.current_entry ∧
        (sweepLoop fuel ds head).1.sweeper = (ds.sweeper + k) % 64 ∧
        (∀ j, j < k →
          (ds.entries ((ds.sweeper + j) % 64)).count = 0 ∧
          (sweepLoop fuel ds head).1.entries ((ds.sweeper + j) % 64)
            = { ds.entries ((ds.sweeper + j) % 64) with work_items := [] }) ∧
        (∀ i, (∀ j, j < k → i ≠ (ds.sweeper + j) % 64) →
          (sweepLoop fuel ds head).1.entries i = ds.entries i) ∧
        ((sweepLoop fuel ds head).1.sweeper = ds.current_entry ∨
          (ds.entries ((ds.sweeper + k) % 64)).count ≠ 0) ∧
        (∀ w, w ∈ (sweepLoop fuel ds head).2 ↔
          w ∈ head ∨ ∃ j, j < k ∧
            w ∈ (ds.entries ((ds.sweeper + j) % 64)).work_items) := by
  induction fuel with
  | zero =>
    intro ds head hs hc hf
    have hsc : ds.sweeper = ds.current_entry := by
      unfold ringDist DEFERRED_SET_SIZE at hf
      omega
    have hmod : (ds.sweeper + 0) % 64 = ds.sweeper := by omega
    refine ⟨0, Nat.zero_le _, rfl, ?_, ?_, ?_, ?_, ?_⟩
    · show ds.sweeper = (ds.sweeper + 0) % 64
      omega
    · intro j hj
      exact absurd hj (Nat.not_lt_zero j)
    · intro i _
      rfl
    · exact Or.inl hsc
    · intro w
      simp [sweepLoop]
  | succ fuel ih =>
    intro ds head hs hc hf
    by_cases hg : ds.sweeper ≠ ds.current_entry ∧ (ds.entries ds.sweeper).count = 0
    · -- the loop body runs once, then recurses on the advanced state
      set ds2 : deferred_set :=
        { ds with
            entries := fun i =>
              if i = ds.sweeper then
                { ds.entries ds.sweeper with work_items := [] }
              else ds.entries i,
            sweeper := ds_next ds.sweeper } with hds2
      set head2 : List Work := (ds.entries ds.sweeper).work_items ++ head with hhead2
      have hstep : sweepLoop (fuel + 1) ds head = sweepLoop fuel ds2 head2 := by
        simp only [sweepLoop]
        rw [if_pos hg]
      have e_cur : ds2.current_entry = ds.current_entry := rfl
      have e_sw : ds2.sweeper = (ds.sweeper + 1) % 64 := rfl
      have e_ent : ∀ i, i ≠ ds.sweeper → ds2.entries i = ds.entries i := by
        intro i hi
        show (if i = ds.sweeper then _ else ds.entries i) = ds.entries i
        rw [if_neg hi]
      have e_ent_s : ds2.entries ds.sweeper
          = { ds.entries ds.sweeper with work_items := [] } := by
        show (if ds.sweeper = ds.sweeper then _ else _) = _
        rw [if_pos rfl]
      have hs2 : ds2.sweeper < 64 := ds_next_lt ds.sweeper
      have hd : ringDist ds2.sweeper ds.current_entry + 1
          = ringDist ds.sweeper ds.current_entry :=
        ringDist_next ds.sweeper ds.current_entry hs hc hg.1
      have hf2 : ringDist ds2.sweeper ds2.current_entry ≤ fuel := by
        rw [e_cur]
        omega
      obtain ⟨k, hk, hcur, hsw, hpass, hunt, hstop, hmem⟩ :=
        ih ds2 head2 hs2 (e_cur ▸ hc) hf2
      have hkd : k ≤ ringDist ds2.sweeper ds.current_entry := by
        rw [← e_cur]
        exact hk
      have hdlt : ringDist ds.sweeper ds.current_entry < 64 :=
        ringDist_lt ds.sweeper ds.current_entry
      have hA : ∀ j, (ds2.sweeper + j) % 64 = (ds.sweeper + (j + 1)) % 64 := by
        intro j
        rw [e_sw]
        exact mod_shift ds.sweeper j
    -- slots passed after the first are never the first slot again
      have hne_s : ∀ j, j + 1 ≤ k → (ds.sweeper + (j + 1)) % 64 ≠ ds.sweeper := by
        intro j hj
        omega
      refine ⟨k + 1, by omega, ?_, ?_, ?_, ?_, ?_, ?_⟩
      · rw [hstep]
        exact hcur
      · rw [hstep, hsw, hA]
      · intro j hj
        cases j with
        | zero =>
          have hmod0 : (ds.sweeper + 0) % 64 = ds.sweeper := by omega
          rw [hmod0]
          refine ⟨hg.2, ?_⟩
          rw [hstep]
          have huse : ∀ j2, j2 < k → ds.sweeper ≠ (ds2.sweeper + j2) % 64 := by
            intro j2 hj2
            rw [hA j2]
            exact (hne_s j2 (by omega)).symm
          rw [hunt ds.sweeper huse, e_ent_s]
        | succ j2 =>
          have hj2 : j2 < k := by omega
          have hslot : (ds.sweeper + (j2 + 1)) % 64 = (ds2.sweeper + j2) % 64 :=
            (hA j2).symm
          have hslot_ne : (ds2.sweeper + j2) % 64 ≠ ds.sweeper := by
            rw [hA j2]
            exact hne_s j2 (by omega)
          have h1 := (hpass j2 hj2).1
          have h2 := (hpass j2 hj2).2
          rw [e_ent _ hslot_ne] at h1 h2
          rw [hslot, hstep]
          exact ⟨h1, h2⟩
      · intro i hi
        rw [hstep]
        have huse : ∀ j2, j2 < k → i ≠ (ds2.sweeper + j2) % 64 := by
          intro j2 hj2
          rw [hA j2]
          exact hi (j2 + 1) (by omega)
        have hi0 : i ≠ ds.sweeper := by
          have := hi 0 (by omega)
          have hmod0 : (ds.sweeper + 0) % 64 = ds.sweeper := by omega
          rw [hmod0] at this
          exact this
        rw [hunt i huse]
        exact e_ent i hi0
      · rw [hstep]
        rcases hstop with h | h
        · exact Or.inl (h.trans e_cur)
        · right
          rw [hA k] at h
          have hne2 : (ds.sweeper + (k + 1)) % 64 ≠ ds.sweeper := by
            omega
          rw [e_ent _ hne2] at h
          exact h
      · intro w
        rw [hstep, hmem w]
        have hmemh2 : w ∈ head2 ↔
            w ∈ (ds.entries ds.sweeper).work_items ∨ w ∈ head := by
          rw [hhead2]
          exact List.mem_append
        constructor
        · intro h
          rcases h with h | ⟨j, hj, hw⟩
          · rcases hmemh2.1 h with h | h
            · right
              refine ⟨0, by omega, ?_⟩
              have hmod0 : (ds.sweeper + 0) % 64 = ds.sweeper := by omega
              rw [hmod0]
              exact h
            · exact Or.inl h
          · right
            refine ⟨j + 1, by omega, ?_⟩
            have hslot_ne : (ds2.sweeper + j) % 64 ≠ ds.sweeper := by
              rw [hA j]
              exact hne_s j (by omega)
            rw [e_ent _ hslot_ne, hA j] at hw
            exact hw
        · intro h
          rcases h with h | ⟨j, hj, hw⟩
          · exact Or.inl (hmemh2.2 (Or.inr h))
          · cases j with
            | zero =>
              have hmod0 : (ds.sweeper + 0) % 64 = ds.sweeper := by omega
              rw [hmod0] at hw
              exact Or.inl (hmemh2.2 (Or.inl hw))
            | succ j2 =>
              right
              refine ⟨j2, by omega, ?_⟩
              have hslot_ne : (ds2.sweeper + j2) % 64 ≠ ds.sweeper := by
                rw [hA j2]
                exact hne_s j2 (by omega)
              rw [e_ent _ hslot_ne, hA j2]
              exact hw
    · -- the loop guard fails immediately: nothing is swept
      have hstep : sweepLoop (fuel + 1) ds head = (ds, head) := by
        simp only [sweepLoop]
        rw [if_neg hg]
      have hmod0 : (ds.sweeper + 0) % 64 = ds.sweeper := by omega
      refine ⟨0, Nat.zero_le _, ?_, ?_, ?_, ?_, ?_, ?_⟩
      · rw [hstep]
      · rw [hstep, hmod0]
      · intro j hj
        exact absurd hj (Nat.not_lt_zero j)
      · intro i _
        rw [hstep]
      · rw [hstep, hmod0]
        rcases not_and_or.1 hg with h | h
        · exact Or.inl (not_not.1 h)
        · exact Or.inr h
      · intro w
        rw [hstep]
        simp

/-- The behaviour the specification ascribes to ds_dec, as a predicate on the
deferred set and the slot index being decremented.  Writing D for the set with
the slot's counter decremented and R for the result of ds_dec on an initially
empty drain list: the current entry is unchanged; no counter other than the
decremented one changes; there are k ≤ ringDist passed slots, the sweeper
advances exactly over them, each had a zero count (after the decrement) and
its work items are drained; the sweeper stops at the current entry or at a
slot with non-zero count; when it stops at the current entry and that count
is zero the current entry's work items drain as well; and the drained list
holds exactly the passed slots' items plus, in that special case, the current
entry's items. -/
def ds_dec_ok (ds : deferred_set) (entry : Nat) : Prop :=
  (ds_dec ds entry []).1.current_entry = ds.current_entry ∧
  (∀ i, ((ds_dec ds entry []).1.entries i).count
      = ((dec_entry ds entry).entries i).count) ∧
  ((ds_dec ds entry []).1.entries entry).count = (ds.entries entry).count - 1 ∧
  ∃ k, k ≤ ringDist ds.sweeper ds.current_entry ∧
    (ds_dec ds entry []).1.sweeper = (ds.sweeper + k) % 64 ∧
    (∀ j, j < k →
      ((dec_entry ds entry).entries ((ds.sweeper + j) % 64)).count = 0 ∧
      ((ds_dec ds entry []).1.entries ((ds.sweeper + j) % 64)).work_items = []) ∧
    ((ds_dec ds entry []).1.sweeper = ds.current_entry ∨
      ((dec_entry ds entry).entries ((ds_dec ds entry []).1.sweeper)).count ≠ 0) ∧
    (((ds_dec ds entry []).1.sweeper = ds.current_entry ∧
        ((dec_entry ds entry).entries ds.current_entry).count = 0) →
      ((ds_dec ds entry []).1.entries ds.current_entry).work_items = []) ∧
    (∀ w, w ∈ (ds_dec ds entry []).2 ↔
      ((∃ j, j < k ∧
          w ∈ ((dec_entry ds entry).entries ((ds.sweeper + j) % 64)).work_items) ∨
       ((ds_dec ds entry []).1.sweeper = ds.current_entry ∧
        ((dec_entry ds entry).entries ds.current_entry).count = 0 ∧
        w ∈ ((dec_entry ds entry).entries ds.current_entry).work_items)))

/-- C6: for every deferred-set state in which the given entry's count is
positive, ds_dec decrements that entry's count and then advances the sweeper
past every slot whose count is zero, strictly up to but not beyond the
current entry, splicing each passed slot's work items into the returned list;
additionally, if the sweeper equals the current entry and that slot's count
is zero, that slot's work items are drained as well. -/
theorem c6_ds_dec_spec (ds : deferred_set) (entry : Nat)
    (hs : ds.sweeper < 64) (hc : ds.current_entry < 64)
    (he : 0 < (ds.entries entry).count) :
    ds_dec_ok ds entry := by
  have hD_count_entry : ((dec_entry ds entry).entries entry).count
      = (ds.entries entry).count - 1 := by
    show (if entry = entry then _ else _ : deferred_entry).count = _
    rw [if_pos rfl]
  set L := sweepLoop DEFERRED_SET_SIZE (dec_entry ds entry) [] with hLdef
  obtain ⟨k, hk0, hcur0, hsw0, hpass0, hunt0, hstop0, hmem0⟩ :=
    sweepLoop_spec DEFERRED_SET_SIZE (dec_entry ds entry) []
      hs hc (Nat.le_of_lt (ringDist_lt ds.sweeper ds.current_entry))
  have hk : k ≤ ringDist ds.sweeper ds.current_entry := hk0
  have hcur : L.1.current_entry = ds.current_entry := hcur0
  have hsw : L.1.sweeper = (ds.sweeper + k) % 64 := hsw0
  have hpass : ∀ j, j < k →
      ((dec_entry ds entry).entries ((ds.sweeper + j) % 64)).count = 0 ∧
      L.1.entries ((ds.sweeper + j) % 64)
        = { (dec_entry ds entry).entries ((ds.sweeper + j) % 64) with
              work_items := [] } := hpass0
  have hunt : ∀ i, (∀ j, j < k → i ≠ (ds.sweeper + j) % 64) →
      L.1.entries i = (dec_entry ds entry).entries i := hunt0
  have hstop : L.1.sweeper = ds.current_entry ∨
      ((dec_entry ds entry).entries ((ds.sweeper + k) % 64)).count ≠ 0 := hstop0
  have hmem : ∀ w, w ∈ L.2 ↔ w ∈ ([] : List Work) ∨ ∃ j, j < k ∧
      w ∈ ((dec_entry ds entry).entries ((ds.sweeper + j) % 64)).work_items :=
    hmem0
  have hdlt : ringDist ds.sweeper ds.current_entry < 64 :=
    ringDist_lt ds.sweeper ds.current_entry
  have hcount1 : ∀ i, (L.1.entries i).count
      = ((dec_entry ds entry).entries i).count := by
    intro i
    by_cases hex : ∃ j, j < k ∧ i = (ds.sweeper + j) % 64
    · obtain ⟨j, hj, rfl⟩ := hex
      rw [(hpass j hj).2]
    · push_neg at hex
      rw [hunt i hex]
  have hswne : ∀ j, j < k → L.1.sweeper ≠ (ds.sweeper + j) % 64 := by
    intro j hj
    rw [hsw]
    omega
  have hswunt : L.1.entries L.1.sweeper
      = (dec_entry ds entry).entries L.1.sweeper := by
    apply hunt
    intro j hj
    exact hswne j hj
  by_cases hcond :
      L.1.sweeper = L.1.current_entry ∧ (L.1.entries L.1.sweeper).count = 0
  · -- special case: the sweeper reached the current entry with count zero
    have hswc : L.1.sweeper = ds.current_entry := hcond.1.trans hcur
    have hdc0 : ((dec_entry ds entry).entries ds.current_entry).count = 0 := by
      have h1 := hcount1 L.1.sweeper
      rw [hswc] at h1
      rw [← h1]
      rw [← hswc]
      exact hcond.2
    have hdd : ds_dec ds entry []
        = ({ L.1 with entries := fun i =>
              if i = L.1.sweeper then
                { L.1.entries L.1.sweeper with work_items := [] }
              else L.1.entries i },
           (L.1.entries L.1.sweeper).work_items ++ L.2) := by
      show __sweep (dec_entry ds entry) [] = _
      unfold __sweep
      rw [if_pos hcond]
    refine ⟨?_, ?_, ?_, ?_⟩
    · rw [hdd]
      exact hcur
    · intro i
      rw [hdd]
      show (if i = L.1.sweeper then
              { L.1.entries L.1.sweeper with work_items := [] }
            else L.1.entries i).count = _
      by_cases hi : i = L.1.sweeper
      · rw [if_pos hi, hi]
        exact hcount1 L.1.sweeper
      · rw [if_neg hi]
        exact hcount1 i
    · rw [hdd]
      show (if entry = L.1.sweeper then
              { L.1.entries L.1.sweeper with work_items := [] }
            else L.1.entries entry).count = _
      by_cases hi : entry = L.1.sweeper
      · rw [if_pos hi]
        show (L.1.entries L.1.sweeper).count = (ds.entries entry).count - 1
        rw [← hi, hcount1 entry, hD_count_entry]
      · rw [if_neg hi, ← hD_count_entry]
        exact hcount1 entry
    · refine ⟨k, hk, ?_, ?_, ?_, ?_, ?_⟩
      · rw [hdd]
        exact hsw
      · intro j hj
        refine ⟨(hpass j hj).1, ?_⟩
        rw [hdd]
        show (if (ds.sweeper + j) % 64 = L.1.sweeper then
                { L.1.entries L.1.sweeper with work_items := [] }
              else L.1.entries ((ds.sweeper + j) % 64)).work_items = []
        rw [if_neg (fun h => hswne j hj h.symm), (hpass j hj).2]
      · rw [hdd]
        exact Or.inl hswc
      · intro _
        rw [hdd]
        show (if ds.current_entry = L.1.sweeper then
                { L.1.entries L.1.sweeper with work_items := [] }
              else L.1.entries ds.current_entry).work_items = []
        rw [if_pos hswc.symm]
      · intro w
        rw [hdd]
        show w ∈ (L.1.entries L.1.sweeper).work_items ++ L.2 ↔ _
        rw [List.mem_append]
        have hitems : (L.1.entries L.1.sweeper).work_items
            = ((dec_entry ds entry).entries ds.current_entry).work_items := by
          rw [hswunt, hswc]
        constructor
        · intro h
          rcases h with h | h
          · right
            exact ⟨hswc, hdc0, hitems ▸ h⟩
          · left
            rcases (hmem w).1 h with h2 | h2
            · exact absurd h2 (List.not_mem_nil w)
            · exact h2
        · intro h
          rcases h with h | h
          · right
            exact (hmem w).2 (Or.inr h)
          · left
            rw [hitems]
            exact h.2.2
  · -- ordinary case: the sweeper stops before draining the current entry
    have hdd : ds_dec ds entry [] = L := by
      show __sweep (dec_entry ds entry) [] = _
      unfold __sweep
      rw [if_neg hcond]
    have hnotspecial : ¬(L.1.sweeper = ds.current_entry ∧
        ((dec_entry ds entry).entries ds.current_entry).count = 0) := by
      intro h
      apply hcond
      refine ⟨h.1.trans hcur.symm, ?_⟩
      rw [hcount1 L.1.sweeper, h.1]
      exact h.2
    refine ⟨?_, ?_, ?_, ?_⟩
    · rw [hdd]
      exact hcur
    · intro i
      rw [hdd]
      exact hcount1 i
    · rw [hdd, ← hD_count_entry]
      exact hcount1 entry
    · refine ⟨k, hk, ?_, ?_, ?_, ?_, ?_⟩
      · rw [hdd]
        exact hsw
      · intro j hj
        refine ⟨(hpass j hj).1, ?_⟩
        rw [hdd, (hpass j hj).2]
      · rw [hdd]
        rcases hstop with h | h
        · exact Or.inl h
        · right
          rw [hsw]
          exact h
      · intro h
        rw [hdd] at h ⊢
        exact absurd h hnotspecial
      · intro w
        rw [hdd]
        constructor
        · intro h
          rcases (hmem w).1 h with h2 | h2
          · exact absurd h2 (List.not_mem_nil w)
          · exact Or.inl h2
        · intro h
          rcases h with h | h
          · exact (hmem w).2 (Or.inr h)
          · exact absurd ⟨h.1, h.2.1⟩ hnotspecial

/-- Concrete instance for c6_ds_dec_spec: slot 0 holds the last outstanding
read and one queued mapping, slot 1 is the current entry with a queued
mapping; decrementing slot 0 drains both slots. -/
def dsB : deferred_set :=
  { current_entry := 1, sweeper := 0,
    entries := fun i =>
      if i = 0 then ⟨1, [10]⟩ else if i = 1 then ⟨0, [20]⟩ else ⟨0, []⟩ }

theorem c6_ds_dec_spec_witness :
    0 < (dsB.entries 0).count ∧ dsB.sweeper < 64 ∧ dsB.current_entry < 64 ∧
    ds_dec_ok dsB 0 :=
  ⟨by decide, by decide, by decide,
   c6_ds_dec_spec dsB 0 (by decide) (by decide) (by decide)⟩

/-! ### Bio prison (dm-thin.c: prison_create .. cell_error)

A hash table of cells keyed by (virtual?, dev, block); each cell holds a
count and the list of detained bios.  Bios are identified by natural-number
ids; the table is a function from bucket index to bucket (cell list), the
buckets reachable by hash_key being the meaningful ones. -/

abbrev Bio := Nat

structure cell_key where
  virtual : Bool
  dev : Nat
  block : Nat
deriving DecidableEq

structure cell where
  key : cell_key
  count : Nat
  bios : List Bio
deriving DecidableEq

structure bio_prison where
  nr_buckets : Nat
  hash_mask : Nat
  cells : Nat → List cell

def BIG_PRIME : Nat := 4294967291

/-- Source: hash_key — the 64-bit product key->block * BIG_PRIME masked with
hash_mask (nr_buckets - 1, nr_buckets a power of two). -/
def hash_key (p : bio_prison) (key : cell_key) : Nat :=
  ((key.block * BIG_PRIME) % 2 ^ 64) &&& p.hash_mask

/-- Source: __search_bucket — first cell in the bucket whose key matches. -/
def __search_bucket (bucket : List cell) (key : cell_key) : Option cell :=
  bucket.find? (fun c => c.key == key)

/-- The shared tail of bio_detain once the cell for the key is present in the
bucket: r = cell->count++; bio_list_add(&cell->bios, inmate). -/
def add_inmate (p : bio_prison) (key : cell_key) (inmate : Bio) (hash : Nat) :
    bio_prison :=
  { p with cells := fun i =>
      if i = hash then
        (p.cells hash).map (fun c =>
          if c.key == key then
            { c with count := c.count + 1, bios := c.bios ++ [inmate] }
          else c)
      else p.cells i }

/-- Source: the insertion arm of bio_detain — the freshly allocated cell is
initialised with count 0 and an empty bio list, hlist_add_head puts it at the
bucket head, and the shared tail then makes its count 1 and its bio list
[inmate]. -/
def insert_new_cell (p : bio_prison) (key : cell_key) (inmate : Bio)
    (hash : Nat) : bio_prison :=
  { p with cells := fun i =>
      if i = hash then { key := key, count := 1, bios := [inmate] } :: p.cells hash
      else p.cells i }

/-- Source: bio_detain, as the atomic find-or-create it implements under the
prison lock (the lock drop across cell allocation is modelled separately by
the race system below).  Returns the number of entries in the cell prior to
the new addition. -/
def bio_detain (p : bio_prison) (key : cell_key) (inmate : Bio) :
    Nat × bio_prison :=
  match __search_bucket (p.cells (hash_key p key)) key with
  | some c => (c.count, add_inmate p key inmate (hash_key p key))
  | none => (0, insert_new_cell p key inmate (hash_key p key))

/-- Source: __cell_release — the cell is unhooked from its bucket and its
bios are appended to the given list. -/
def __cell_release (p : bio_prison) (key : cell_key) (inmates : List Bio) :
    bio_prison × List Bio :=
  (⟨p.nr_buckets, p.hash_mask, fun i =>
      if i = hash_key p key then
        (p.cells i).filter (fun c => !(c.key == key))
      else p.cells i⟩,
   inmates ++ (match __search_bucket (p.cells (hash_key p key)) key with
               | some c => c.bios
               | none => []))

/-- The first cell for the key, looked up in the key's bucket. -/
def findCell (p : bio_prison) (key : cell_key) : Option cell :=
  __search_bucket (p.cells (hash_key p key)) key

/-- The bios already detained for the key (empty when no cell exists). -/
def detained_bios (p : bio_prison) (key : cell_key) : List Bio :=
  match findCell p key with
  | some c => c.bios
  | none => []

/-- Prison well-formedness used by the bio_detain theorem: every resident
cell's count equals the number of bios it holds and is positive (a cell is
created only by bio_detain, which immediately detains a bio in it, and is
only ever removed whole). -/
def cells_counted (p : bio_prison) : Prop :=
  ∀ i c, c ∈ p.cells i → c.count = c.bios.length ∧ 0 < c.count

lemma find?_map_key_preserving (l : List cell) (key : cell_key)
    (g : cell → cell) (hg : ∀ c, (g c).key = c.key) :
    (l.map g).find? (fun c => c.key == key)
      = (l.find? (fun c => c.key == key)).map g := by
  induction l with
  | nil => rfl
  | cons c l ihl =>
    by_cases hck : c.key = key
    · have h1 : ((g c).key == key) = true := by
        rw [hg c]
        exact beq_iff_eq.2 hck
      have h2 : (c.key == key) = true := beq_iff_eq.2 hck
      simp [List.find?, h1, h2]
    · have h1 : ((g c).key == key) = false := by
        rw [hg c]
        exact beq_eq_false_iff_ne.2 hck
      have h2 : (c.key == key) = false := beq_eq_false_iff_ne.2 hck
      simp [List.find?, h1, h2, ihl]

/-- C3: bio_detain finds or creates the cell for the key, appends the bio to
the cell's list, and returns the number of bios that were in the cell before
this insertion; the return value is 0 exactly when no cell for the key
existed before the call (the caller becomes the cell's owner). -/
theorem c3_bio_detain_spec (p : bio_prison) (key : cell_key) (inmate : Bio)
    (hwf : cells_counted p) :
    (∃ c2, findCell (bio_detain p key inmate).2 key = some c2 ∧
      c2.bios = detained_bios p key ++ [inmate] ∧
      c2.count = (bio_detain p key inmate).1 + 1) ∧
    (bio_detain p key inmate).1 = (detained_bios p key).length ∧
    ((bio_detain p key inmate).1 = 0 ↔ findCell p key = none) := by
  rcases hfind : findCell p key with _ | c
  · -- no cell for the key: one is created holding just this bio
    have hdet : bio_detain p key inmate
        = (0, insert_new_cell p key inmate (hash_key p key)) := by
      unfold bio_detain
      rw [show __search_bucket (p.cells (hash_key p key)) key = none from hfind]
    have hbucket : (insert_new_cell p key inmate (hash_key p key)).cells
        (hash_key p key)
        = { key := key, count := 1, bios := [inmate] } :: p.cells (hash_key p key) := by
      show (if hash_key p key = hash_key p key then _ else _) = _
      rw [if_pos rfl]
    have hhash : hash_key (insert_new_cell p key inmate (hash_key p key)) key
        = hash_key p key := rfl
    refine ⟨⟨{ key := key, count := 1, bios := [inmate] }, ?_, ?_, ?_⟩, ?_, ?_⟩
    · rw [hdet]
      show findCell (insert_new_cell p key inmate (hash_key p key)) key = _
      unfold findCell __search_bucket
      rw [hhash, hbucket]
      simp [List.find?]
    · unfold detained_bios
      rw [hfind]
      rfl
    · rw [hdet]
    · rw [hdet]
      unfold detained_bios
      rw [hfind]
      rfl
    · rw [hdet]
      simp [hfind]
  · -- the cell exists: the bio is appended and the old count returned
    have hdet : bio_detain p key inmate
        = (c.count, add_inmate p key inmate (hash_key p key)) := by
      unfold bio_detain
      rw [show __search_bucket (p.cells (hash_key p key)) key = some c from hfind]
    have hkey : c.key = key := by
      have := List.find?_some hfind
      exact beq_iff_eq.1 this
    have hmemc : c ∈ p.cells (hash_key p key) :=
      List.mem_of_find?_eq_some hfind
    have hbucket : (add_inmate p key inmate (hash_key p key)).cells
        (hash_key p key)
        = (p.cells (hash_key p key)).map (fun c2 =>
            if c2.key == key then
              { c2 with count := c2.count + 1, bios := c2.bios ++ [inmate] }
            else c2) := by
      show (if hash_key p key = hash_key p key then _ else _) = _
      rw [if_pos rfl]
    have hg : ∀ c2 : cell,
        ((fun c2 : cell =>
          if c2.key == key then
            { c2 with count := c2.count + 1, bios := c2.bios ++ [inmate] }
          else c2) c2).key = c2.key := by
      intro c2
      by_cases h : c2.key = key
      · simp [beq_iff_eq.2 h, h]
      · simp [beq_eq_false_iff_ne.2 h]
    have hfound : findCell (add_inmate p key inmate (hash_key p key)) key
        = some { c with count := c.count + 1, bios := c.bios ++ [inmate] } := by
      unfold findCell __search_bucket
      show ((add_inmate p key inmate (hash_key p key)).cells (hash_key p key)).find?
          (fun c2 => c2.key == key) = _
      rw [hbucket, find?_map_key_preserving _ key _ hg]
      rw [show (p.cells (hash_key p key)).find? (fun c2 => c2.key == key)
            = some c from hfind]
      show some (if (c.key == key) = true then
          { c with count := c.count + 1, bios := c.bios ++ [inmate] }
        else c) = _
      rw [if_pos (beq_iff_eq.2 hkey)]
    refine ⟨⟨{ c with count := c.count + 1, bios := c.bios ++ [inmate] },
        ?_, ?_, ?_⟩, ?_, ?_⟩
    · rw [hdet]
      exact hfound
    · unfold detained_bios
      rw [hfind]
    · rw [hdet]
    · rw [hdet]
      unfold detained_bios
      rw [hfind]
      exact (hwf (hash_key p key) c hmemc).1
    · rw [hdet]
      simp only [hfind]
      constructor
      · intro h0
        exact absurd ((hwf (hash_key p key) c hmemc).2) (by omega)
      · intro h
        exact absurd h (by simp)

/-- Concrete instance for c3_bio_detain_spec: a one-bucket prison already
holding a cell for another key. -/
def prisonC : bio_prison :=
  { nr_buckets := 1, hash_mask := 0,
    cells := fun i =>
      if i = 0 then [{ key := ⟨false, 3, 9⟩, count := 1, bios := [42] }] else [] }

def keyC : cell_key := ⟨true, 7, 5⟩

theorem c3_bio_detain_spec_witness :
    cells_counted prisonC ∧
    ((bio_detain prisonC keyC 11).1 = 0 ↔ findCell prisonC keyC = none) ∧
    (bio_detain prisonC keyC 11).1 = (detained_bios prisonC keyC).length :=
  have hwf : cells_counted prisonC := by
    intro i c hc
    by_cases hi : i = 0
    · subst hi
      have hc2 : c ∈ [({ key := ⟨false, 3, 9⟩, count := 1, bios := [42] } : cell)] := hc
      have hc3 := List.mem_singleton.1 hc2
      subst hc3
      exact ⟨rfl, by decide⟩
    · have he2 : prisonC.cells i = [] := if_neg hi
      rw [he2] at hc
      exact absurd hc (List.not_mem_nil c)
  ⟨hwf, ((c3_bio_detain_spec prisonC keyC 11 hwf).2.2),
   ((c3_bio_detain_spec prisonC keyC 11 hwf).2.1)⟩

/-! ### The bio_detain allocation race (C2)

bio_detain drops the prison lock across mempool_alloc and re-searches the
bucket after reacquiring it.  The race of two concurrent bio_detain calls on
the same key is modelled as an interleaving of atomic critical sections: a
thread in state start runs the first locked section (search; on a hit add the
bio and finish, on a miss leave to allocate); a thread in midalloc has
allocated its spare cell and runs the second locked section (re-search; on a
miss insert the preallocated cell, on a hit use the found cell — the spare is
then freed back to the pool unused).  The Bool carried by doneAlloc records
whether the preallocated cell was inserted (true) or freed unused (false). -/

inductive TState where
  | start
  | midalloc
  | doneDirect (r : Nat)
  | doneAlloc (r : Nat) (used : Bool)
deriving DecidableEq

structure RaceState where
  prison : bio_prison
  t1 : TState
  t2 : TState

inductive Tid where
  | one
  | two
deriving DecidableEq

/-- One atomic critical section of bio_detain, for a thread in the given
state (done states take no step). -/
def stepThread (key : cell_key) (inmate : Bio) (p : bio_prison) :
    TState → bio_prison × TState
  | .start =>
    match __search_bucket (p.cells (hash_key p key)) key with
    | some c => (add_inmate p key inmate (hash_key p key), .doneDirect c.count)
    | none => (p, .midalloc)
  | .midalloc =>
    match __search_bucket (p.cells (hash_key p key)) key with
    | some c => (add_inmate p key inmate (hash_key p key), .doneAlloc c.count false)
    | none => (insert_new_cell p key inmate (hash_key p key), .doneAlloc 0 true)
  | s => (p, s)

def raceStep (key : cell_key) (b1 b2 : Bio) (s : RaceState) : Tid → RaceState
  | .one => { s with prison := (stepThread key b1 s.prison s.t1).1,
                     t1 := (stepThread key b1 s.prison s.t1).2 }
  | .two => { s with prison := (stepThread key b2 s.prison s.t2).1,
                     t2 := (stepThread key b2 s.prison s.t2).2 }

/-- Run the race under an arbitrary interleaving schedule. -/
def raceRun (key : cell_key) (b1 b2 : Bio) (s : RaceState) :
    List Tid → RaceState
  | [] => s
  | t :: ts => raceRun key b1 b2 (raceStep key b1 b2 s t) ts

/-- The cells for a key, in the key's bucket. -/
def keyCells (p : bio_prison) (key : cell_key) : List cell :=
  (p.cells (hash_key p key)).filter (fun c => c.key == key)

/-- Every cell resides in the bucket its key hashes to. -/
def bucket_keyed (p : bio_prison) : Prop :=
  ∀ i c, c ∈ p.cells i → hash_key p c.key = i

/-- At most one prison cell exists per key. -/
def one_per_key (p : bio_prison) : Prop :=
  bucket_keyed p ∧ ∀ k, (keyCells p k).length ≤ 1

/-- How many cells the thread has inserted into the table. -/
def installed : TState → Nat
  | .doneAlloc _ true => 1
  | _ => 0

/-- C2's conclusion: at most one cell per key, and at most one of the two
racing threads ever inserted its preallocated cell (the loser freed it back
to the pool unused). -/
def race_ok (key : cell_key) (s : RaceState) : Prop :=
  one_per_key s.prison ∧ installed s.t1 + installed s.t2 ≤ 1

lemma filter_key_map (l : List cell) (k' : cell_key) (g : cell → cell)
    (hg : ∀ c, (g c).key = c.key) :
    ((l.map g).filter (fun c => c.key == k')).length
      = (l.filter (fun c => c.key == k')).length := by
  rw [List.filter_map]
  have hcong : l.filter ((fun c2 : cell => c2.key == k') ∘ g)
      = l.filter (fun c2 : cell => c2.key == k') :=
    List.filter_congr (fun c _ => by
      show ((g c).key == k') = (c.key == k')
      rw [hg c])
  rw [hcong]
  exact List.length_map _ _

lemma add_inmate_key_preserving (key : cell_key) (b : Bio) :
    ∀ c : cell,
      ((fun c2 : cell =>
        if c2.key == key then
          { c2 with count := c2.count + 1, bios := c2.bios ++ [b] }
        else c2) c).key = c.key := by
  intro c
  by_cases h : c.key = key
  · simp [beq_iff_eq.2 h, h]
  · simp [beq_eq_false_iff_ne.2 h]

lemma add_inmate_cells (p : bio_prison) (key : cell_key) (b : Bio) (j : Nat) :
    (add_inmate p key b (hash_key p key)).cells j
      = if j = hash_key p key then
          (p.cells (hash_key p key)).map (fun c =>
            if c.key == key then
              { c with count := c.count + 1, bios := c.bios ++ [b] }
            else c)
        else p.cells j := rfl

lemma keyCells_add_inmate (p : bio_prison) (key : cell_key) (b : Bio)
    (k' : cell_key) :
    (keyCells (add_inmate p key b (hash_key p key)) k').length
      = (keyCells p k').length := by
  unfold keyCells
  show (((add_inmate p key b (hash_key p key)).cells (hash_key p k')).filter
      (fun c => c.key == k')).length = _
  rw [add_inmate_cells]
  by_cases hb : hash_key p k' = hash_key p key
  · rw [if_pos hb, ← hb]
    exact filter_key_map _ k' _ (add_inmate_key_preserving key b)
  · rw [if_neg hb]

lemma bucket_keyed_add_inmate (p : bio_prison) (key : cell_key) (b : Bio)
    (hp : bucket_keyed p) :
    bucket_keyed (add_inmate p key b (hash_key p key)) := by
  intro i c hc
  rw [add_inmate_cells] at hc
  show hash_key p c.key = i
  by_cases hi : i = hash_key p key
  · rw [if_pos hi] at hc
    rcases List.mem_map.1 hc with ⟨c0, hc0, rfl⟩
    rw [add_inmate_key_preserving key b c0]
    rw [hi]
    exact hp _ c0 hc0
  · rw [if_neg hi] at hc
    exact hp i c hc

lemma insert_new_cell_cells (p : bio_prison) (key : cell_key) (b : Bio)
    (j : Nat) :
    (insert_new_cell p key b (hash_key p key)).cells j
      = if j = hash_key p key then
          { key := key, count := 1, bios := [b] } :: p.cells (hash_key p key)
        else p.cells j := rfl

lemma keyCells_insert_same (p : bio_prison) (key : cell_key) (b : Bio) :
    (keyCells (insert_new_cell p key b (hash_key p key)) key).length
      = (keyCells p key).length + 1 := by
  unfold keyCells
  show (((insert_new_cell p key b (hash_key p key)).cells (hash_key p key)).filter
      (fun c => c.key == key)).length = _
  rw [insert_new_cell_cells, if_pos rfl]
  rw [List.filter_cons_of_pos (by simp)]
  rfl

lemma keyCells_insert_other (p : bio_prison) (key : cell_key) (b : Bio)
    (k' : cell_key) (hk : k' ≠ key) :
    (keyCells (insert_new_cell p key b (hash_key p key)) k').length
      = (keyCells p k').length := by
  unfold keyCells
  show (((insert_new_cell p key b (hash_key p key)).cells (hash_key p k')).filter
      (fun c => c.key == k')).length = _
  rw [insert_new_cell_cells]
  by_cases hb : hash_key p k' = hash_key p key
  · rw [if_pos hb, List.filter_cons_of_neg (by simp [hk.symm]), hb]
  · rw [if_neg hb]

lemma bucket_keyed_insert (p : bio_prison) (key : cell_key) (b : Bio)
    (hp : bucket_keyed p) :
    bucket_keyed (insert_new_cell p key b (hash_key p key)) := by
  intro i c hc
  rw [insert_new_cell_cells] at hc
  show hash_key p c.key = i
  by_cases hi : i = hash_key p key
  · rw [if_pos hi] at hc
    rcases List.mem_cons.1 hc with hc | hc
    · rw [hc]
      exact hi.symm
    · rw [hi]
      exact hp _ c hc
  · rw [if_neg hi] at hc
    exact hp i c hc

lemma keyCells_empty_of_find_none (p : bio_prison) (key : cell_key)
    (h : __search_bucket (p.cells (hash_key p key)) key = none) :
    (keyCells p key).length = 0 := by
  unfold keyCells
  rw [List.filter_eq_nil_iff.2 (List.find?_eq_none.1 h)]
  rfl

/-- Invariant of the race: the table is well formed and the number of cells
for the contested key equals the number of preallocated cells the two threads
have inserted. -/
def RInv (key : cell_key) (s : RaceState) : Prop :=
  one_per_key s.prison ∧
  (keyCells s.prison key).length = installed s.t1 + installed s.t2

lemma stepThread_spec (key : cell_key) (b : Bio) (p : bio_prison) (t : TState)
    (hp : one_per_key p) :
    one_per_key (stepThread key b p t).1 ∧
    (keyCells (stepThread key b p t).1 key).length + installed t
      = (keyCells p key).length + installed (stepThread key b p t).2 := by
  cases t with
  | start =>
    rcases hfind : __search_bucket (p.cells (hash_key p key)) key with _ | c
    · have hstep : stepThread key b p .start = (p, .midalloc) := by
        unfold stepThread
        rw [hfind]
      rw [hstep]
      exact ⟨hp, rfl⟩
    · have hstep : stepThread key b p .start
          = (add_inmate p key b (hash_key p key), .doneDirect c.count) := by
        unfold stepThread
        rw [hfind]
      rw [hstep]
      refine ⟨⟨bucket_keyed_add_inmate p key b hp.1, ?_⟩, ?_⟩
      · intro k
        rw [keyCells_add_inmate]
        exact hp.2 k
      · rw [keyCells_add_inmate]
        rfl
  | midalloc =>
    rcases hfind : __search_bucket (p.cells (hash_key p key)) key with _ | c
    · have hstep : stepThread key b p .midalloc
          = (insert_new_cell p key b (hash_key p key), .doneAlloc 0 true) := by
        unfold stepThread
        rw [hfind]
      rw [hstep]
      have h0 : (keyCells p key).length = 0 :=
        keyCells_empty_of_find_none p key hfind
      refine ⟨⟨bucket_keyed_insert p key b hp.1, ?_⟩, ?_⟩
      · intro k
        by_cases hk : k = key
        · subst hk
          rw [keyCells_insert_same, h0]
        · rw [keyCells_insert_other p key b k hk]
          exact hp.2 k
      · rw [keyCells_insert_same]
        show (keyCells p key).length + 1 + 0 = (keyCells p key).length + 1
        omega
    · have hstep : stepThread key b p .midalloc
          = (add_inmate p key b (hash_key p key), .doneAlloc c.count false) := by
        unfold stepThread
        rw [hfind]
      rw [hstep]
      refine ⟨⟨bucket_keyed_add_inmate p key b hp.1, ?_⟩, ?_⟩
      · intro k
        rw [keyCells_add_inmate]
        exact hp.2 k
      · rw [keyCells_add_inmate]
        rfl
  | doneDirect r => exact ⟨hp, rfl⟩
  | doneAlloc r used => exact ⟨hp, rfl⟩

lemma raceStep_inv (key : cell_key) (b1 b2 : Bio) (s : RaceState) (t : Tid)
    (h : RInv key s) : RInv key (raceStep key b1 b2 s t) := by
  cases t with
  | one =>
    obtain ⟨h1, h2⟩ := stepThread_spec key b1 s.prison s.t1 h.1
    refine ⟨h1, ?_⟩
    show (keyCells (stepThread key b1 s.prison s.t1).1 key).length
        = installed (stepThread key b1 s.prison s.t1).2 + installed s.t2
    have h3 := h.2
    omega
  | two =>
    obtain ⟨h1, h2⟩ := stepThread_spec key b2 s.prison s.t2 h.1
    refine ⟨h1, ?_⟩
    show (keyCells (stepThread key b2 s.prison s.t2).1 key).length
        = installed s.t1 + installed (stepThread key b2 s.prison s.t2).2
    have h3 := h.2
    omega

lemma raceRun_inv (key : cell_key) (b1 b2 : Bio) (sched : List Tid) :
    ∀ s : RaceState, RInv key s → RInv key (raceRun key b1 b2 s sched) := by
  induction sched with
  | nil => intro s h; exact h
  | cons t ts ih =>
    intro s h
    exact ih _ (raceStep_inv key b1 b2 s t h)

/-- C2: starting from any well-formed prison with no cell for the contested
key, whatever the interleaving of the two racing bio_detain calls, every
reachable state has at most one cell per key, and at most one of the two
preallocated cells is ever inserted — the losing caller's cell is freed back
to the pool unused. -/
theorem c2_bio_detain_race (key : cell_key) (b1 b2 : Bio) (p0 : bio_prison)
    (h0 : one_per_key p0) (hk : (keyCells p0 key).length = 0)
    (sched : List Tid) :
    race_ok key (raceRun key b1 b2 ⟨p0, .start, .start⟩ sched) := by
  have hinit : RInv key ⟨p0, .start, .start⟩ := ⟨h0, hk⟩
  obtain ⟨h1, h2⟩ := raceRun_inv key b1 b2 sched ⟨p0, .start, .start⟩ hinit
  refine ⟨h1, ?_⟩
  have h3 := h1.2 key
  omega

/-- Concrete instance for c2_bio_detain_race: an empty one-bucket prison and
the schedule in which both threads miss on their first section and then both
run their second section. -/
def prisonEmpty : bio_prison := ⟨1, 0, fun _ => []⟩

def keyR : cell_key := ⟨true, 7, 0⟩

theorem c2_bio_detain_race_witness :
    race_ok keyR
      (raceRun keyR 1 2 ⟨prisonEmpty, .start, .start⟩
        [.one, .two, .one, .two]) :=
  c2_bio_detain_race keyR 1 2 prisonEmpty
    ⟨fun _ c hc => absurd hc (List.not_mem_nil c),
     fun _ => Nat.zero_le 1⟩
    rfl [.one, .two, .one, .two]

/-! ### NewMapping lifecycle (C1)

A new_mapping's single list head m->list is, at any moment, unlinked, linked
into a deferred-set slot's work-item list, or linked into the pool's
prepared-mappings list; __maybe_add_mapping moves it to the prepared list
only when it is unlinked (list_empty) and its prepared flag is set.  The
lifecycle of one mapping created by schedule_copy is modelled as a state
machine: gatingReads abstracts the outstanding shared reads, counted in the
deferred-set slots up to the one the mapping was queued on, that must drain
before ds_dec's sweep hands the mapping back (the sweep itself is verified
separately as c6_ds_dec_spec); ds_add_work queues the mapping exactly when
such reads exist (schedule_copy ignores its return value — when it returns 0
the list head simply stays empty).  Events: complete is copy_complete /
overwrite_endio (set prepared under the pool lock, then __maybe_add_mapping);
readEnd is shared_read_endio (ds_dec; when the last gating read drains, the
mapping is unhooked from the work list — list_del + INIT_LIST_HEAD — and
__maybe_add_mapping runs); readStart is a further ds_inc on a slot still
gating the queued mapping. -/

inductive MLoc where
  | unlinked
  | onWork
  | onPrepared
deriving DecidableEq

structure MState where
  loc : MLoc
  prepared : Bool
  gatingReads : Nat
deriving DecidableEq

/-- Source: __maybe_add_mapping — add to prepared_mappings only when
list_empty(&m->list) and m->prepared. -/
def __maybe_add_mapping (s : MState) : MState :=
  if s.loc = MLoc.unlinked ∧ s.prepared = true then
    { s with loc := MLoc.onPrepared }
  else s

inductive MEvent where
  | complete
  | readEnd
  | readStart
deriving DecidableEq

def mstep (s : MState) : MEvent → MState
  | .complete => __maybe_add_mapping { s with prepared := true }
  | .readStart =>
    if s.loc = MLoc.onWork then { s with gatingReads := s.gatingReads + 1 } else s
  | .readEnd =>
    if s.loc = MLoc.onWork then
      if s.gatingReads - 1 = 0 then
        __maybe_add_mapping { s with loc := MLoc.unlinked, gatingReads := 0 }
      else { s with gatingReads := s.gatingReads - 1 }
    else s

/-- Source: schedule_copy — the mapping starts unprepared; ds_add_work queues
it on the deferred set exactly when reads are gating it. -/
def schedule_copy_init (gating : Nat) : MState :=
  if gating = 0 then ⟨MLoc.unlinked, false, 0⟩ else ⟨MLoc.onWork, false, gating⟩

def mrun (s : MState) : List MEvent → MState
  | [] => s
  | e :: es => mrun (mstep s e) es

/-- C1's invariant: a mapping on the prepared list has its prepared flag set
and no gating read in flight; a mapping still on a work list has at least one
gating read; an unlinked mapping has none. -/
def mapping_ok (s : MState) : Prop :=
  (s.loc = MLoc.onPrepared → s.prepared = true ∧ s.gatingReads = 0) ∧
  (s.loc = MLoc.onWork → 0 < s.gatingReads) ∧
  (s.loc = MLoc.unlinked → s.gatingReads = 0)

lemma mapping_ok_step :
    ∀ (s : MState) (e : MEvent), mapping_ok s → mapping_ok (mstep s e) := by
  rintro ⟨loc, prep, reads⟩ e ⟨h1, h2, h3⟩
  cases e with
  | complete =>
    cases loc with
    | unlinked =>
      have hr : reads = 0 := h3 rfl
      subst hr
      show mapping_ok ⟨MLoc.onPrepared, true, 0⟩
      exact ⟨fun _ => ⟨rfl, rfl⟩, fun hw => MLoc.noConfusion hw, fun hu => MLoc.noConfusion hu⟩
    | onWork =>
      have hr := h2 rfl
      show mapping_ok ⟨MLoc.onWork, true, reads⟩
      exact ⟨fun hp => MLoc.noConfusion hp, fun _ => hr, fun hu => MLoc.noConfusion hu⟩
    | onPrepared =>
      have hr := (h1 rfl).2
      subst hr
      show mapping_ok ⟨MLoc.onPrepared, true, 0⟩
      exact ⟨fun _ => ⟨rfl, rfl⟩, fun hw => MLoc.noConfusion hw, fun hu => MLoc.noConfusion hu⟩
  | readStart =>
    cases loc with
    | unlinked =>
      show mapping_ok ⟨MLoc.unlinked, prep, reads⟩
      exact ⟨h1, h2, h3⟩
    | onWork =>
      show mapping_ok ⟨MLoc.onWork, prep, reads + 1⟩
      exact ⟨fun hp => MLoc.noConfusion hp, fun _ => Nat.succ_pos reads, fun hu => MLoc.noConfusion hu⟩
    | onPrepared =>
      show mapping_ok ⟨MLoc.onPrepared, prep, reads⟩
      exact ⟨h1, h2, h3⟩
  | readEnd =>
    cases loc with
    | unlinked =>
      show mapping_ok ⟨MLoc.unlinked, prep, reads⟩
      exact ⟨h1, h2, h3⟩
    | onPrepared =>
      show mapping_ok ⟨MLoc.onPrepared, prep, reads⟩
      exact ⟨h1, h2, h3⟩
    | onWork =>
      by_cases hz : reads - 1 = 0
      · have hstep : mstep ⟨MLoc.onWork, prep, reads⟩ MEvent.readEnd
            = __maybe_add_mapping ⟨MLoc.unlinked, prep, 0⟩ := by
          show (if reads - 1 = 0 then
                  __maybe_add_mapping ⟨MLoc.unlinked, prep, 0⟩
                else ⟨MLoc.onWork, prep, reads - 1⟩) = _
          rw [if_pos hz]
        rw [hstep]
        cases prep with
        | true =>
          show mapping_ok ⟨MLoc.onPrepared, true, 0⟩
          exact ⟨fun _ => ⟨rfl, rfl⟩, fun hw => MLoc.noConfusion hw, fun hu => MLoc.noConfusion hu⟩
        | false =>
          show mapping_ok ⟨MLoc.unlinked, false, 0⟩
          exact ⟨fun hp => MLoc.noConfusion hp, fun hw => MLoc.noConfusion hw, fun _ => rfl⟩
      · have hstep : mstep ⟨MLoc.onWork, prep, reads⟩ MEvent.readEnd
            = ⟨MLoc.onWork, prep, reads - 1⟩ := by
          show (if reads - 1 = 0 then
                  __maybe_add_mapping ⟨MLoc.unlinked, prep, 0⟩
                else ⟨MLoc.onWork, prep, reads - 1⟩) = _
          rw [if_neg hz]
        rw [hstep]
        exact ⟨fun hp => MLoc.noConfusion hp, fun _ => Nat.pos_of_ne_zero hz,
               fun hu => MLoc.noConfusion hu⟩

lemma mrun_ok (evs : List MEvent) :
    ∀ s : MState, mapping_ok s → mapping_ok (mrun s evs) := by
  induction evs with
  | nil => intro s h; exact h
  | cons e es ih =>
    intro s h
    exact ih _ (mapping_ok_step s e h)

/-- C1: for every break-of-sharing write, whatever completions and shared
reads interleave, the new mapping reaches the pool's prepared-mappings list
only when its copy or overwrite has completed (prepared flag set) and it is
no longer on any deferred-set work list — every shared read gating the slot
it was queued on has completed and decremented; hence the mapping is never
queued for installation while such a read is in flight. -/
theorem c1_prepared_mapping_gate (gating : Nat) (evs : List MEvent) :
    mapping_ok (mrun (schedule_copy_init gating) evs) := by
  apply mrun_ok
  unfold schedule_copy_init
  by_cases hg : gating = 0
  · rw [if_pos hg]
    exact ⟨fun hp => MLoc.noConfusion hp, fun hw => MLoc.noConfusion hw, fun _ => rfl⟩
  · rw [if_neg hg]
    exact ⟨fun hp => MLoc.noConfusion hp, fun _ => Nat.pos_of_ne_zero hg,
           fun hu => MLoc.noConfusion hu⟩

/-- Concrete instance for c1_prepared_mapping_gate: one gating read; the copy
completes first, then the read drains, which installs the mapping. -/
theorem c1_prepared_mapping_gate_witness :
    mapping_ok (mrun (schedule_copy_init 1) [MEvent.complete, MEvent.readEnd]) :=
  c1_prepared_mapping_gate 1 [MEvent.complete, MEvent.readEnd]

/-! ### Pool queues, fast path, retry and low-water (C4, C7, C8, C9, C10)

The pool fields relevant to these claims, with bio_io_error / bio_endio and
dm_table_event modelled as outputs.  External collaborators appear as result
parameters: lookup is the outcome of dm_thin_find_block, insert_r of
dm_thin_insert_block, commit_r of dm_pool_commit_metadata, getfree_r of
dm_pool_get_free_block_count, getsize_r of dm_pool_get_data_dev_size,
resize_r of dm_pool_resize_data_dev. -/

structure pool_state where
  deferred_bios : List Bio
  retry_list : List Bio
  low_water_triggered : Bool
  low_water_mark : Nat
  block_shift : Nat
  offset_mask : Nat
  worker_woken : Bool
deriving DecidableEq

structure bio_state where
  flush_fua : Bool
  sector : Nat
  id : Bio
deriving DecidableEq

/-- Source: get_bio_block — bio->bi_sector >> pool->block_shift. -/
def get_bio_block (pool : pool_state) (bio : bio_state) : Nat :=
  bio.sector >>> pool.block_shift

/-- Source: remap — the new bi_sector:
(block << block_shift) + (bi_sector & offset_mask). -/
def remap_sector (pool : pool_state) (bio : bio_state) (block : Nat) : Nat :=
  (block <<< pool.block_shift) + (bio.sector &&& pool.offset_mask)

inductive issue_result where
  | issued (sector : Nat)
  | errored
deriving DecidableEq

/-- Source: remap_and_issue — a FLUSH/FUA bio forces a metadata commit first;
if the commit fails the bio is completed with bio_io_error and never issued,
otherwise the bio is remapped and passed to generic_make_request. -/
def remap_and_issue (pool : pool_state) (bio : bio_state) (block : Nat)
    (commit_r : Int) : issue_result :=
  if bio.flush_fua then
    if commit_r ≠ 0 then issue_result.errored
    else issue_result.issued (remap_sector pool bio block)
  else issue_result.issued (remap_sector pool bio block)

/-- Source: thin_defer_bio — append to pool->deferred_bios under the pool
lock, then wake_worker. -/
def thin_defer_bio (pool : pool_state) (bio : bio_state) : pool_state :=
  { pool with deferred_bios := pool.deferred_bios ++ [bio.id],
              worker_woken := true }

inductive lookup_result where
  | found (block : Nat) (shared : Bool)
  | enodata
  | ewouldblock
deriving DecidableEq

inductive map_verdict where
  | remapped (sector : Nat)
  | submitted
deriving DecidableEq

/-- Source: thin_bio_map — FLUSH/FUA bios are deferred before any lookup;
otherwise the non-blocking dm_thin_find_block decides: a hit on an unshared
block remaps in place (DM_MAPIO_REMAPPED), a shared hit, -ENODATA miss or
-EWOULDBLOCK defers (DM_MAPIO_SUBMITTED). -/
def thin_bio_map (pool : pool_state) (bio : bio_state)
    (lookup : lookup_result) : map_verdict × pool_state :=
  if bio.flush_fua then (map_verdict.submitted, thin_defer_bio pool bio)
  else
    match lookup with
    | .found block shared =>
      if shared then (map_verdict.submitted, thin_defer_bio pool bio)
      else (map_verdict.remapped (remap_sector pool bio block), pool)
    | .enodata => (map_verdict.submitted, thin_defer_bio pool bio)
    | .ewouldblock => (map_verdict.submitted, thin_defer_bio pool bio)

structure new_mapping where
  err : Int
  bio : Option Bio
deriving DecidableEq

/-- The observable effect of process_prepared_mapping: which cell bios were
failed with I/O error, which were released back onto the deferred list, which
fast-path writer bio was completed successfully, and whether the metadata
insertion was attempted. -/
structure ppm_result where
  errored : List Bio
  deferred : List Bio
  completed_ok : Option Bio
  insert_attempted : Bool
deriving DecidableEq

/-- Source: cell_defer_except — every bio of the cell except the exception
goes back onto pool->deferred_bios. -/
def cell_defer_except (cellBios : List Bio) (exception : Bio) : List Bio :=
  cellBios.filter (fun b => b != exception)

/-- Source: process_prepared_mapping — cellBios are the bios detained in
m->cell, insert_r the result of dm_thin_insert_block for virt_block ↦
data_block.  A mapping carrying an error fails its cell before any insertion;
a failed insertion fails the cell; otherwise a hooked fast-path writer is
completed with bio_endio(bio, 0) and the other cell bios are re-deferred, or,
with no writer, all cell bios are re-deferred (cell_defer). -/
def process_prepared_mapping (m : new_mapping) (cellBios : List Bio)
    (insert_r : Int) : ppm_result :=
  if m.err ≠ 0 then
    { errored := cellBios, deferred := [], completed_ok := none,
      insert_attempted := false }
  else if insert_r ≠ 0 then
    { errored := cellBios, deferred := [], completed_ok := none,
      insert_attempted := true }
  else
    match m.bio with
    | some b =>
      { errored := [], deferred := cell_defer_except cellBios b,
        completed_ok := some b, insert_attempted := true }
    | none =>
      { errored := [], deferred := cellBios, completed_ok := none,
        insert_attempted := true }

/-- Source: retry_later — park the bio on pool->retry_list. -/
def retry_later (pool : pool_state) (b : Bio) : pool_state :=
  { pool with retry_list := pool.retry_list ++ [b] }

/-- Source: no_space — release the cell and park each of its bios on the
retry list; the second component lists the bios completed with an error
(none: no bio_io_error is called on this path). -/
def no_space (pool : pool_state) (cellBios : List Bio) :
    pool_state × List Bio :=
  (cellBios.foldl retry_later pool, [])

/-- Source: __requeue_bios — merge the retry list onto the deferred list. -/
def __requeue_bios (pool : pool_state) : pool_state :=
  { pool with deferred_bios := pool.deferred_bios ++ pool.retry_list,
              retry_list := [] }

/-- Source: pool_preresume — compare the table's data size with the on-disk
size, resize up and commit when larger, then clear low_water_triggered,
requeue the retry list and wake the worker (-22 is -EINVAL). -/
def pool_preresume (pool : pool_state) (data_size sb_data_size : Nat)
    (getsize_r resize_r commit_r : Int) : Int × pool_state :=
  if getsize_r ≠ 0 then (getsize_r, pool)
  else if data_size < sb_data_size then (-22, pool)
  else if sb_data_size < data_size ∧ resize_r ≠ 0 then (resize_r, pool)
  else if sb_data_size < data_size ∧ commit_r ≠ 0 then (commit_r, pool)
  else (0, { __requeue_bios pool with low_water_triggered := false,
                                      worker_woken := true })

/-- Source: alloc_data_block — after a successful free-block count read, if
the count is at or below the low-water mark and the event has not fired yet,
set low_water_triggered and raise a dm_table_event (the Bool output), then
try the allocation proper. -/
def alloc_data_block (pool : pool_state) (free_blocks : Nat)
    (getfree_r alloc_r : Int) : Int × pool_state × Bool :=
  if getfree_r ≠ 0 then (getfree_r, pool, false)
  else if free_blocks ≤ pool.low_water_mark ∧ pool.low_water_triggered = false then
    (if alloc_r ≠ 0 then alloc_r else 0,
     { pool with low_water_triggered := true }, true)
  else
    (if alloc_r ≠ 0 then alloc_r else 0, pool, false)

/-- C4: for every prepared mapping processed by the worker: a nonzero error
fails every bio queued in the cell with no metadata insertion; a failed
insertion fails them the same way; otherwise a fast-path writer causes all
other queued bios to be re-deferred and the writer to complete successfully,
and with no writer all queued bios are re-deferred. -/
theorem c4_process_prepared_mapping_spec (m : new_mapping)
    (cellBios : List Bio) (insert_r : Int) :
    (m.err ≠ 0 →
      process_prepared_mapping m cellBios insert_r
        = { errored := cellBios, deferred := [], completed_ok := none,
            insert_attempted := false }) ∧
    (m.err = 0 → insert_r ≠ 0 →
      process_prepared_mapping m cellBios insert_r
        = { errored := cellBios, deferred := [], completed_ok := none,
            insert_attempted := true }) ∧
    (m.err = 0 → insert_r = 0 → ∀ b, m.bio = some b →
      process_prepared_mapping m cellBios insert_r
        = { errored := [], deferred := cellBios.filter (fun x => x != b),
            completed_ok := some b, insert_attempted := true }) ∧
    (m.err = 0 → insert_r = 0 → m.bio = none →
      process_prepared_mapping m cellBios insert_r
        = { errored := [], deferred := cellBios, completed_ok := none,
            insert_attempted := true }) := by
  refine ⟨?_, ?_, ?_, ?_⟩
  · intro he
    unfold process_prepared_mapping
    rw [if_pos he]
  · intro he hi
    unfold process_prepared_mapping
    rw [if_neg (by simp [he]), if_pos hi]
  · intro he hi b hb
    unfold process_prepared_mapping
    rw [if_neg (by simp [he]), if_neg (by simp [hi]), hb]
    rfl
  · intro he hi hb
    unfold process_prepared_mapping
    rw [if_neg (by simp [he]), if_neg (by simp [hi]), hb]

/-- Concrete instance for c4_process_prepared_mapping_spec: a fast-path
writer (bio 5) among cell bios [5, 6, 7], successful insertion. -/
theorem c4_process_prepared_mapping_spec_witness :
    process_prepared_mapping ⟨0, some 5⟩ [5, 6, 7] 0
      = { errored := [], deferred := [6, 7], completed_ok := some 5,
          insert_attempted := true } :=
  ((c4_process_prepared_mapping_spec ⟨0, some 5⟩ [5, 6, 7] 0).2.2.1
    rfl rfl 5 rfl).trans (by decide)

/-- C7: for every bio without FLUSH/FUA, the fast-path map function performs
the non-blocking lookup; a hit with shared = false is remapped in place and
reported remapped; a shared hit, a not-found miss or a would-block sentinel
appends the bio to the pool's deferred list, wakes the worker and reports the
bio submitted. -/
theorem c7_thin_bio_map_spec (pool : pool_state) (bio : bio_state)
    (lookup : lookup_result) (hf : bio.flush_fua = false) :
    (∀ block, lookup = lookup_result.found block false →
      thin_bio_map pool bio lookup
        = (map_verdict.remapped (remap_sector pool bio block), pool)) ∧
    (((∃ block, lookup = lookup_result.found block true) ∨
        lookup = lookup_result.enodata ∨ lookup = lookup_result.ewouldblock) →
      thin_bio_map pool bio lookup = (map_verdict.submitted, thin_defer_bio pool bio) ∧
      (thin_bio_map pool bio lookup).2.deferred_bios
        = pool.deferred_bios ++ [bio.id] ∧
      (thin_bio_map pool bio lookup).2.worker_woken = true) := by
  constructor
  · intro block hl
    subst hl
    unfold thin_bio_map
    rw [if_neg (by simp [hf])]
    rfl
  · intro hl
    have hstep : thin_bio_map pool bio lookup
        = (map_verdict.submitted, thin_defer_bio pool bio) := by
      unfold thin_bio_map
      rw [if_neg (by simp [hf])]
      rcases hl with ⟨block, hb⟩ | hb | hb <;> subst hb <;> rfl
    exact ⟨hstep, by rw [hstep]; rfl, by rw [hstep]; rfl⟩

/-- Concrete instance for c7_thin_bio_map_spec: a would-block lookup defers
the bio. -/
def poolW : pool_state :=
  { deferred_bios := [], retry_list := [], low_water_triggered := false,
    low_water_mark := 4, block_shift := 7, offset_mask := 127,
    worker_woken := false }

def bioW : bio_state := { flush_fua := false, sector := 300, id := 9 }

theorem c7_thin_bio_map_spec_witness :
    thin_bio_map poolW bioW lookup_result.ewouldblock
      = (map_verdict.submitted, thin_defer_bio poolW bioW) ∧
    (thin_bio_map poolW bioW lookup_result.ewouldblock).2.deferred_bios = [9] ∧
    (thin_bio_map poolW bioW lookup_result.ewouldblock).2.worker_woken = true := by
  have h := (c7_thin_bio_map_spec poolW bioW lookup_result.ewouldblock rfl).2
    (Or.inr (Or.inr rfl))
  exact ⟨h.1, h.2.1.trans (by decide), h.2.2⟩

/-- C10: every FLUSH/FUA bio is unconditionally deferred by the fast-path map
function, whatever the lookup would say; and when such a bio is later
remapped and issued, a metadata commit happens first — a failed commit
completes the bio with an I/O error and the bio is not issued, a successful
commit lets it be issued at the remapped sector. -/
theorem c10_flush_defer_commit_spec (pool : pool_state) (bio : bio_state)
    (block : Nat) (commit_r : Int) (hf : bio.flush_fua = true) :
    (∀ lookup, thin_bio_map pool bio lookup
      = (map_verdict.submitted, thin_defer_bio pool bio)) ∧
    (thin_defer_bio pool bio).deferred_bios = pool.deferred_bios ++ [bio.id] ∧
    (thin_defer_bio pool bio).worker_woken = true ∧
    (commit_r ≠ 0 →
      remap_and_issue pool bio block commit_r = issue_result.errored) ∧
    (commit_r = 0 →
      remap_and_issue pool bio block commit_r
        = issue_result.issued (remap_sector pool bio block)) := by
  refine ⟨?_, rfl, rfl, ?_, ?_⟩
  · intro lookup
    unfold thin_bio_map
    rw [if_pos hf]
  · intro hcr
    unfold remap_and_issue
    rw [if_pos hf, if_pos hcr]
  · intro hcr
    unfold remap_and_issue
    rw [if_pos hf, if_neg (by simp [hcr])]

/-- Concrete instance for c10_flush_defer_commit_spec: a FLUSH bio with a
failing commit. -/
def bioF : bio_state := { flush_fua := true, sector := 0, id := 3 }

theorem c10_flush_defer_commit_spec_witness :
    thin_bio_map poolW bioF (lookup_result.found 0 false)
      = (map_verdict.submitted, thin_defer_bio poolW bioF) ∧
    remap_and_issue poolW bioF 0 (-5) = issue_result.errored := by
  have h := c10_flush_defer_commit_spec poolW bioF 0 (-5) rfl
  exact ⟨h.1 (lookup_result.found 0 false), h.2.2.2.1 (by decide)⟩

lemma retry_later_foldl (bios : List Bio) :
    ∀ pool : pool_state,
      (bios.foldl retry_later pool).retry_list = pool.retry_list ++ bios ∧
      (bios.foldl retry_later pool).deferred_bios = pool.deferred_bios ∧
      (bios.foldl retry_later pool).low_water_triggered
        = pool.low_water_triggered ∧
      (bios.foldl retry_later pool).worker_woken = pool.worker_woken := by
  induction bios with
  | nil =>
    intro pool
    exact ⟨(List.append_nil _).symm, rfl, rfl, rfl⟩
  | cons b bs ih =>
    intro pool
    obtain ⟨h1, h2, h3, h4⟩ := ih (retry_later pool b)
    refine ⟨?_, h2, h3, h4⟩
    show (List.foldl retry_later (retry_later pool b) bs).retry_list
        = pool.retry_list ++ b :: bs
    rw [h1]
    show pool.retry_list ++ [b] ++ bs = pool.retry_list ++ b :: bs
    simp

/-- C8: when allocation fails with no space, every bio of the owning cell is
moved to the pool's retry list and none is completed with an error; a
subsequent successful preresume requeues every retry-list bio onto the
deferred list, clears low_water_triggered and wakes the worker. -/
theorem c8_no_space_retry_spec (pool pool2 : pool_state)
    (cellBios : List Bio) (data_size sb_data_size : Nat)
    (getsize_r resize_r commit_r : Int)
    (hget : getsize_r = 0)
    (hfit : sb_data_size ≤ data_size)
    (hresize : sb_data_size < data_size → resize_r = 0)
    (hcommit : sb_data_size < data_size → commit_r = 0) :
    ((no_space pool cellBios).1.retry_list = pool.retry_list ++ cellBios ∧
     (no_space pool cellBios).2 = [] ∧
     (no_space pool cellBios).1.deferred_bios = pool.deferred_bios) ∧
    ((pool_preresume pool2 data_size sb_data_size getsize_r resize_r commit_r).1
        = 0 ∧
     (pool_preresume pool2 data_size sb_data_size getsize_r resize_r
        commit_r).2.deferred_bios = pool2.deferred_bios ++ pool2.retry_list ∧
     (pool_preresume pool2 data_size sb_data_size getsize_r resize_r
        commit_r).2.retry_list = [] ∧
     (pool_preresume pool2 data_size sb_data_size getsize_r resize_r
        commit_r).2.low_water_triggered = false ∧
     (pool_preresume pool2 data_size sb_data_size getsize_r resize_r
        commit_r).2.worker_woken = true) := by
  obtain ⟨h1, h2, h3, h4⟩ := retry_later_foldl cellBios pool
  have hpre : pool_preresume pool2 data_size sb_data_size getsize_r resize_r
      commit_r
      = (0, { __requeue_bios pool2 with low_water_triggered := false,
                                        worker_woken := true }) := by
    unfold pool_preresume
    rw [if_neg (by simp [hget]), if_neg (by omega),
        if_neg (fun h => h.2 (hresize h.1)), if_neg (fun h => h.2 (hcommit h.1))]
  exact ⟨⟨h1, rfl, h2⟩, by rw [hpre], by rw [hpre]; rfl, by rw [hpre]; rfl,
         by rw [hpre], by rw [hpre]⟩

/-- Concrete instance for c8_no_space_retry_spec: two parked bios, a pool
whose table size equals the on-disk size. -/
def poolR : pool_state :=
  { deferred_bios := [1], retry_list := [2, 3], low_water_triggered := true,
    low_water_mark := 4, block_shift := 7, offset_mask := 127,
    worker_woken := false }

theorem c8_no_space_retry_spec_witness :
    (no_space poolW [8, 9]).1.retry_list = [8, 9] ∧
    (no_space poolW [8, 9]).2 = [] ∧
    (pool_preresume poolR 16 16 0 0 0).2.deferred_bios = [1, 2, 3] ∧
    (pool_preresume poolR 16 16 0 0 0).2.retry_list = [] ∧
    (pool_preresume poolR 16 16 0 0 0).2.low_water_triggered = false ∧
    (pool_preresume poolR 16 16 0 0 0).2.worker_woken = true := by
  have h := c8_no_space_retry_spec poolW poolR [8, 9] 16 16 0 0 0 rfl
    (by omega) (fun h => rfl) (fun h => rfl)
  exact ⟨h.1.1.trans (by decide), h.1.2.1, h.2.2.1.trans (by decide),
         h.2.2.2.1, h.2.2.2.2.1, h.2.2.2.2.2⟩

/-- C9: on an allocation attempt with a successful free-count read, when the
free count is at or below the low-water mark and low_water_triggered is not
yet set, exactly one resize-needed event is raised and the flag is set, and a
second allocation attempt raises no further event; when the flag is already
set no event is raised; the flag is cleared again by a successful
preresume. -/
theorem c9_low_water_spec (pool : pool_state) (free_blocks free2 : Nat)
    (getfree_r alloc_r alloc_r2 : Int) (hget : getfree_r = 0) :
    (free_blocks ≤ pool.low_water_mark → pool.low_water_triggered = false →
      (alloc_data_block pool free_blocks getfree_r alloc_r).2.2 = true ∧
      (alloc_data_block pool free_blocks getfree_r
        alloc_r).2.1.low_water_triggered = true ∧
      (alloc_data_block
        (alloc_data_block pool free_blocks getfree_r alloc_r).2.1
        free2 0 alloc_r2).2.2 = false) ∧
    (pool.low_water_triggered = true →
      (alloc_data_block pool free_blocks getfree_r alloc_r).2.2 = false ∧
      (alloc_data_block pool free_blocks getfree_r alloc_r).2.1 = pool) ∧
    (∀ (pool2 : pool_state) (dsz : Nat),
      (pool_preresume pool2 dsz dsz 0 0 0).2.low_water_triggered = false) := by
  refine ⟨?_, ?_, ?_⟩
  · intro hfree htrig
    have h1 : alloc_data_block pool free_blocks getfree_r alloc_r
        = (if alloc_r ≠ 0 then alloc_r else 0,
           { pool with low_water_triggered := true }, true) := by
      unfold alloc_data_block
      rw [if_neg (by simp [hget]), if_pos ⟨hfree, htrig⟩]
    refine ⟨by rw [h1], by rw [h1], ?_⟩
    rw [h1]
    show (alloc_data_block { pool with low_water_triggered := true }
        free2 0 alloc_r2).2.2 = false
    unfold alloc_data_block
    rw [if_neg (by simp), if_neg (by simp)]
  · intro htrig
    have h1 : alloc_data_block pool free_blocks getfree_r alloc_r
        = (if alloc_r ≠ 0 then alloc_r else 0, pool, false) := by
      unfold alloc_data_block
      rw [if_neg (by simp [hget]), if_neg (by simp [htrig])]
    exact ⟨by rw [h1], by rw [h1]⟩
  · intro pool2 dsz
    have hpre : pool_preresume pool2 dsz dsz 0 0 0
        = (0, { __requeue_bios pool2 with low_water_triggered := false,
                                          worker_woken := true }) := by
      unfold pool_preresume
      rw [if_neg (by simp), if_neg (by omega), if_neg (by omega),
          if_neg (by omega)]
    rw [hpre]

/-- Concrete instance for c9_low_water_spec: the pool poolW with 4 free
blocks at its low-water mark of 4. -/
theorem c9_low_water_spec_witness :
    (alloc_data_block poolW 4 0 0).2.2 = true ∧
    (alloc_data_block poolW 4 0 0).2.1.low_water_triggered = true ∧
    (alloc_data_block (alloc_data_block poolW 4 0 0).2.1 2 0 0).2.2 = false := by
  have h := (c9_low_water_spec poolW 4 2 0 0 0 rfl).1 (by decide) rfl
  exact h

end DmThin
